import Mathlib

/-!
Verification development for the DocForge document synthesis core,
embedded from `src/docx/generator.ts`.

Modelling conventions:
* JS strings are `List Char` (the structural parser and the inline
  tokenizer index into strings character by character).
* JS numbers are `ℚ`; a JS `undefined` numeric field — and the `NaN`
  that `Math.round(undefined * k)` produces from it — is `Option ℚ`
  (`none`), so that propagation of missing style fields through the
  unit conversions stays observable.
* The JS regex whitespace class `\s` and `String.prototype.trim` are
  modelled on the ASCII whitespace characters; the regex `.` (which in
  JS matches everything except line terminators) is modelled as
  "not `\n` and not `\r`".
* All functions are total: the source never throws on any of the code
  paths embedded here, and loops are expressed with an explicit fuel
  argument that is always called with fuel strictly larger than the
  number of remaining loop steps.
-/

namespace DocForge

/-- The backtick character, written via its code point: it delimits code
spans in the inline tokenizer and code fences in the structural parser. -/
def btk : Char := Char.ofNat 96

/-- ASCII whitespace: models the JS `\s` class and `String.prototype.trim`
for the character range the generator manipulates. -/
def isWs (c : Char) : Bool :=
  c == ' ' || c == '\t' || c == '\n' || c == '\r' || c == Char.ofNat 11 || c == Char.ofNat 12

/-- Line terminators: the characters the JS regex `.` never matches. -/
def isBreak (c : Char) : Bool := c == '\n' || c == '\r'

/-- `String.prototype.trim`: strip leading and trailing whitespace. -/
def trimChars (l : List Char) : List Char :=
  ((l.dropWhile isWs).reverse.dropWhile isWs).reverse

/-- `content.split('\n')` from `parseMarkdownContent`. -/
def splitLines : List Char → List (List Char)
  | [] => [[]]
  | c :: rest =>
    if c = '\n' then [] :: splitLines rest
    else
      match splitLines rest with
      | [] => [[c]]
      | l :: ls => (c :: l) :: ls

/-- Rebuild `lines[i] + '\n'` concatenation used for fenced code content. -/
def joinNl (ls : List (List Char)) : List Char :=
  (ls.map (fun l => l ++ ['\n'])).flatten

/-- One formatted text run, as produced by `parseInlineFormatting`.
`isCode` marks the runs built with the fixed monospace font. -/
structure Run where
  text : List Char
  bold : Bool
  italic : Bool
  isCode : Bool
deriving DecidableEq, Repr

/-- A code run: `new TextRun({ text, font: 'Consolas', ... })` carries no
bold/italics flags. -/
def codeRun (t : List Char) : Run := ⟨t, false, false, true⟩

/-- Flush of the pending plain-text buffer: `if (currentText) runs.push(...)`. -/
def flushRun (pending : List Char) (bold italic : Bool) : List Run :=
  if pending.isEmpty then [] else [⟨pending, bold, italic, false⟩]

/-- `text.indexOf(c, i + 1)`, as a split: `some (before, after)` when the
character occurs, where `before` is the content up to the occurrence and
`after` the remainder past it. -/
def splitAtChar (c : Char) : List Char → Option (List Char × List Char)
  | [] => none
  | x :: xs =>
    if x = c then some ([], xs)
    else (splitAtChar c xs).map (fun pq => (x :: pq.1, pq.2))

/-- `text.indexOf('```', i)`, as a split around the first triple backtick. -/
def splitAtFence : List Char → Option (List Char × List Char)
  | [] => none
  | [_] => none
  | [_, _] => none
  | a :: b :: c :: rest =>
    if a = btk ∧ b = btk ∧ c = btk then some ([], rest)
    else (splitAtFence (b :: c :: rest)).map (fun pq => (a :: pq.1, pq.2))

/-- The character scan of `DocxGenerator.parseInlineFormatting`, with fuel.
Each recursive call strictly shrinks the remaining character list, so any
fuel exceeding the input length computes the loop exactly.

Branches mirror the source in order: a `**` marker flips `bold` after
flushing the pending buffer with the pre-flip state; a single `*` flips
`italic` likewise; a triple backtick consumes up to the next triple
backtick (or end of string) as one code run — note that the source pushes
the code run without flushing the pending buffer; a single backtick does
the same up to the next backtick; any other character is appended to the
pending buffer, which is flushed at end of scan. -/
def scanRunsF : ℕ → List Char → List Char → Bool → Bool → List Run
  | 0, _, _, _, _ => []
  | _ + 1, [], pending, bold, italic => flushRun pending bold italic
  | fuel + 1, c :: rest, pending, bold, italic =>
    if c = '*' then
      if rest.head? = some '*' then
        flushRun pending bold italic ++ scanRunsF fuel rest.tail [] (!bold) italic
      else
        flushRun pending bold italic ++ scanRunsF fuel rest [] bold (!italic)
    else if c = btk then
      if rest.head? = some btk ∧ rest.tail.head? = some btk then
        match splitAtFence rest.tail.tail with
        | none => codeRun rest.tail.tail :: scanRunsF fuel [] pending bold italic
        | some pq => codeRun pq.1 :: scanRunsF fuel pq.2 pending bold italic
      else
        match splitAtChar btk rest with
        | none => codeRun rest :: scanRunsF fuel [] pending bold italic
        | some pq => codeRun pq.1 :: scanRunsF fuel pq.2 pending bold italic
    else
      scanRunsF fuel rest (pending ++ [c]) bold italic

/-- `DocxGenerator.parseInlineFormatting`: run the scan; if it produced no
runs at all, fall back to a single run built from the whole original text
(`runs.length > 0 ? runs : [new TextRun({ text })]`). -/
def parseInlineFormatting (text : List Char) : List Run :=
  let rs := scanRunsF (text.length + 1) text [] false false
  if rs.isEmpty then [⟨text, false, false, false⟩] else rs

/-- Concatenation of the `text` of a run sequence, in order. -/
def runsText (rs : List Run) : List Char := (rs.map Run.text).flatten

/-- List kinds of the structural parser (`'bullet' | 'number'`). -/
inductive LKind
  | bullet
  | number
deriving DecidableEq, Repr

/-- Block elements produced by `parseMarkdownContent` (`ParsedElement`).
The `table` variant of the source type is never produced by the parser
and is omitted. -/
inductive Element
  | heading (level : ℕ) (text : List Char)
  | paragraph (text : List Char)
  | list (kind : LKind) (items : List (List Char))
  | code (text : List Char)
deriving DecidableEq, Repr

/-- The open list accumulator (`currentList`). -/
structure ListAcc where
  kind : LKind
  items : List (List Char)
deriving DecidableEq, Repr

/-- Capture of `\s+(.+)$` against the tail of a line, with JS regex
semantics: `\s+` greedily takes the maximal whitespace prefix and gives
one character back when `.+` would otherwise be empty; `.` matches
everything except line terminators. Returns the captured group. -/
def matchTailCapture (rest : List Char) : Option (List Char) :=
  match rest with
  | [] => none
  | c :: cs =>
    if isWs c then
      let t := (c :: cs).dropWhile isWs
      if t.isEmpty then
        if cs.isEmpty then none
        else if isBreak ((c :: cs).getLastD ' ') then none
        else some [(c :: cs).getLastD ' ']
      else if t.any isBreak then none
      else some t
    else none

/-- `line.match(/^(#{1,6})\s+(.+)$/)`: heading level and trimmed text.
A run of more than six `#` cannot match, because every shorter prefix is
followed by another `#` rather than whitespace. -/
def headingMatch (line : List Char) : Option (ℕ × List Char) :=
  let k := (line.takeWhile (· == '#')).length
  if 1 ≤ k ∧ k ≤ 6 then
    (matchTailCapture (line.drop k)).map (fun cap => (k, trimChars cap))
  else none

/-- `line.match(/^[\-\*]\s+(.+)$/)`: bullet list item text, trimmed. -/
def bulletMatch (line : List Char) : Option (List Char) :=
  match line with
  | [] => none
  | c :: rest =>
    if c = '-' ∨ c = '*' then (matchTailCapture rest).map trimChars else none

/-- `line.match(/^\d+\.\s+(.+)$/)`: numbered list item text, trimmed. -/
def numMatch (line : List Char) : Option (List Char) :=
  let d := line.takeWhile Char.isDigit
  if d.isEmpty then none
  else
    match line.drop d.length with
    | [] => none
    | c :: rest => if c = '.' then (matchTailCapture rest).map trimChars else none

/-- The source checks the bullet regex first (`listMatch ? 'bullet' : 'number'`). -/
def itemMatch (line : List Char) : Option (LKind × List Char) :=
  match bulletMatch line with
  | some t => some (LKind.bullet, t)
  | none => (numMatch line).map (fun t => (LKind.number, t))

/-- `line.startsWith('```')`. -/
def startsFence (line : List Char) : Bool :=
  match line with
  | a :: b :: c :: _ => a == btk && b == btk && c == btk
  | _ => false

/-- The inner fence loop: consume lines until one starting with a triple
backtick (which is itself skipped) or end of input. Returns the consumed
lines and the remainder. -/
def takeToFence : List (List Char) → List (List Char) × List (List Char)
  | [] => ([], [])
  | l :: ls =>
    if startsFence l then ([], ls)
    else
      let r := takeToFence ls
      (l :: r.1, r.2)

/-- Flush of the pending paragraph buffer (`if (currentParagraph) push`). -/
def flushPara (para : List Char) : List Element :=
  if para.isEmpty then [] else [Element.paragraph (trimChars para)]

/-- Flush of the open list accumulator (`if (currentList) push`). -/
def flushList (lst : Option ListAcc) : List Element :=
  match lst with
  | none => []
  | some acc => [Element.list acc.kind acc.items]

/-- The line loop of `parseMarkdownContent`, with fuel. Every recursive
call strictly shrinks the remaining line list (the fence branch consumes
at least the fence line itself), so any fuel exceeding the number of
lines computes the loop exactly. Branch order mirrors the source: blank
line, heading, list item (bullet before number), code fence, then
paragraph accumulation; at end of input the pending paragraph and list
are flushed in that order. -/
def parseLinesF : ℕ → List (List Char) → List Char → Option ListAcc → List Element
  | 0, _, _, _ => []
  | _ + 1, [], para, lst => flushPara para ++ flushList lst
  | fuel + 1, l :: ls, para, lst =>
    if l.all isWs then
      flushPara para ++ flushList lst ++ parseLinesF fuel ls [] none
    else
      match headingMatch l with
      | some kt =>
        flushPara para ++ flushList lst ++
          (Element.heading kt.1 kt.2 :: parseLinesF fuel ls [] none)
      | none =>
        match itemMatch l with
        | some kt =>
          flushPara para ++
            (match lst with
             | some acc =>
               if acc.kind = kt.1 then
                 parseLinesF fuel ls [] (some ⟨acc.kind, acc.items ++ [kt.2]⟩)
               else
                 Element.list acc.kind acc.items ::
                   parseLinesF fuel ls [] (some ⟨kt.1, [kt.2]⟩)
             | none => parseLinesF fuel ls [] (some ⟨kt.1, [kt.2]⟩))
        | none =>
          if startsFence l then
            flushPara para ++ flushList lst ++
              (Element.code (trimChars (joinNl (takeToFence ls).1)) ::
                parseLinesF fuel (takeToFence ls).2 [] none)
          else
            parseLinesF fuel ls (para ++ l ++ ['\n']) lst

/-- The structural parser on a pre-split line list. -/
def parseMarkdownLines (lines : List (List Char)) : List Element :=
  parseLinesF (lines.length + 1) lines [] none

/-- `parseMarkdownContent`: split on newlines and run the line loop. -/
def parseMarkdownContent (s : String) : List Element :=
  parseMarkdownLines (splitLines s.toList)

/-- `mmToTwip` (the spec's `mmToNative`): `Math.round(mm * 56.7)`.
`Math.round` rounds halves toward positive infinity, exactly as
Mathlib's `round` on `ℚ`. -/
def mmToTwip (mm : ℚ) : ℤ := round (mm * 56.7)

/-- `ptToHalfPoints` (the spec's `ptToNative`): `Math.round(pt * 2)`. -/
def ptToHalfPoints (pt : ℚ) : ℤ := round (pt * 2)

/-- `mmToTwip` applied to a possibly-undefined number: in JS,
`Math.round(undefined * 56.7)` is `NaN`, which simply propagates. -/
def mmToTwipO (mm : Option ℚ) : Option ℤ := mm.map mmToTwip

/-- `ptToHalfPoints` on a possibly-undefined number. -/
def ptToHalfPointsO (pt : Option ℚ) : Option ℤ := pt.map ptToHalfPoints

/-- Page orientation. -/
inductive Orientation
  | portrait
  | landscape
deriving DecidableEq, Repr

/-- `page.size` at runtime: each field may be `undefined` when a caller
supplies a deep-partial override object (the TS `Partial<StyleConfig>`
type is shallow, but JSON-loaded overrides are deep-partial at runtime). -/
structure OSize where
  width : Option ℚ := none
  height : Option ℚ := none
deriving DecidableEq, Repr

/-- `page.margins` at runtime. -/
structure OMargins where
  top : Option ℚ := none
  right : Option ℚ := none
  bottom : Option ℚ := none
  left : Option ℚ := none
deriving DecidableEq, Repr

/-- A `page` override: any subset of its keys may be present. -/
structure OPage where
  size : Option OSize := none
  margins : Option OMargins := none
  orientation : Option Orientation := none
deriving DecidableEq, Repr

/-- `font.size` at runtime. -/
structure OFontSize where
  heading : Option ℚ := none
  body : Option ℚ := none
  caption : Option ℚ := none
deriving DecidableEq, Repr

/-- A `font` override. -/
structure OFont where
  eastAsia : Option String := none
  ascii : Option String := none
  size : Option OFontSize := none
deriving DecidableEq, Repr

/-- `paragraph.spacing` at runtime. -/
structure OSpacing where
  line : Option ℚ := none
  before : Option ℚ := none
  after : Option ℚ := none
deriving DecidableEq, Repr

/-- `paragraph.indent` at runtime. -/
structure OIndent where
  firstLine : Option ℚ := none
deriving DecidableEq, Repr

/-- A `paragraph` override. -/
structure OParagraph where
  spacing : Option OSpacing := none
  indent : Option OIndent := none
deriving DecidableEq, Repr

/-- One entry of `headingStyles`. -/
structure HeadingStyleDef where
  level : ℕ
  styleId : String
  name : String
  basedOn : String
  next : String
  quickFormat : Bool
deriving DecidableEq, Repr

/-- One entry of `listStyles`. -/
structure ListStyleDef where
  level : ℕ
  format : LKind
  text : String
deriving DecidableEq, Repr

/-- The `overrides?: Partial<StyleConfig>` argument of `mergeStyles`:
every top-level key may be absent, and the `page`/`font`/`paragraph`
groups may themselves be arbitrarily partial objects. The open `styles`
record is modelled as an association list with opaque string values. -/
structure StyleConfigOverrides where
  version : Option String := none
  page : Option OPage := none
  font : Option OFont := none
  paragraph : Option OParagraph := none
  headingStyles : Option (List HeadingStyleDef) := none
  listStyles : Option (List ListStyleDef) := none
  styles : Option (List (String × String)) := none
deriving DecidableEq, Repr

/-- The merged `page` group. The top-level spread
`{...defaultConfig.page, ...overrides?.page}` always yields all three
keys, but a key copied from the override may be a partial sub-object. -/
structure MPage where
  size : OSize
  margins : OMargins
  orientation : Orientation
deriving DecidableEq, Repr

/-- The merged `font` group. -/
structure MFont where
  eastAsia : String
  ascii : String
  size : OFontSize
deriving DecidableEq, Repr

/-- The merged `paragraph` group. -/
structure MParagraph where
  spacing : OSpacing
  indent : OIndent
deriving DecidableEq, Repr

/-- The `StyleConfig` value held by a `DocxGenerator` after construction:
always the result of `mergeStyles`, so every group object exists, but
leaf fields inside a wholesale-copied partial sub-object may be
`undefined` (`none`). -/
structure StyleConfig where
  version : String
  page : MPage
  font : MFont
  paragraph : MParagraph
  headingStyles : List HeadingStyleDef
  listStyles : List ListStyleDef
  styles : List (String × String)
deriving DecidableEq, Repr

/-- The `defaultConfig` constant of `DocxGenerator.mergeStyles`. -/
def defaultConfig : StyleConfig :=
  { version := "v0.1"
    page :=
      { size := { width := some 210, height := some 297 }
        margins := { top := some 25.4, right := some 31.7, bottom := some 25.4, left := some 31.7 }
        orientation := Orientation.portrait }
    font :=
      { eastAsia := "宋体"
        ascii := "Calibri"
        size := { heading := some 15.75, body := some 10.5, caption := some 9 } }
    paragraph :=
      { spacing := { line := some 360, before := some 0, after := some 0 }
        indent := { firstLine := some 2 } }
    headingStyles :=
      [ ⟨1, "Heading1", "Heading 1", "Normal", "Normal", true⟩,
        ⟨2, "Heading2", "Heading 2", "Heading1", "Normal", true⟩,
        ⟨3, "Heading3", "Heading 3", "Heading2", "Normal", true⟩ ]
    listStyles := []
    styles := [] }

/-- `{...defaultConfig.page, ...overrides?.page}`: each key present on the
override replaces the default wholesale; absent keys keep the default. -/
def mergePage (d : MPage) (o : Option OPage) : MPage :=
  match o with
  | none => d
  | some p =>
    { size := p.size.getD d.size
      margins := p.margins.getD d.margins
      orientation := p.orientation.getD d.orientation }

/-- `{...defaultConfig.font, ...overrides?.font}`. -/
def mergeFont (d : MFont) (o : Option OFont) : MFont :=
  match o with
  | none => d
  | some f =>
    { eastAsia := f.eastAsia.getD d.eastAsia
      ascii := f.ascii.getD d.ascii
      size := f.size.getD d.size }

/-- `{...defaultConfig.paragraph, ...overrides?.paragraph}`. -/
def mergeParagraph (d : MParagraph) (o : Option OParagraph) : MParagraph :=
  match o with
  | none => d
  | some p =>
    { spacing := p.spacing.getD d.spacing
      indent := p.indent.getD d.indent }

/-- `DocxGenerator.mergeStyles`: merge a partial override onto
`defaultConfig`. The `page`/`font`/`paragraph` groups merge one level
deep; `headingStyles` and `listStyles` are wholesale replaced when
present (`overrides?.x || default`; note an array, even empty, is
truthy); `styles` is the key union `{...{}, ...overrides?.styles}`,
which equals the override map when present since the default is empty. -/
def mergeStyles (o : StyleConfigOverrides) : StyleConfig :=
  { version := o.version.getD defaultConfig.version
    page := mergePage defaultConfig.page o.page
    font := mergeFont defaultConfig.font o.font
    paragraph := mergeParagraph defaultConfig.paragraph o.paragraph
    headingStyles := o.headingStyles.getD defaultConfig.headingStyles
    listStyles := o.listStyles.getD defaultConfig.listStyles
    styles := o.styles.getD defaultConfig.styles }

/-- Modelled from the spec: a StyleSheet is fully resolved when every
reachable field is defined. The non-`Option` fields are defined by type;
this checks the eleven leaves that can still be `undefined`. -/
def fullyResolved (c : StyleConfig) : Bool :=
  c.page.size.width.isSome && c.page.size.height.isSome &&
  c.page.margins.top.isSome && c.page.margins.right.isSome &&
  c.page.margins.bottom.isSome && c.page.margins.left.isSome &&
  c.font.size.heading.isSome && c.font.size.body.isSome &&
  c.font.size.caption.isSome &&
  c.paragraph.spacing.line.isSome && c.paragraph.spacing.before.isSome &&
  c.paragraph.spacing.after.isSome &&
  c.paragraph.indent.firstLine.isSome

/-- Every nested sub-object the override supplies is itself fully
specified (the restriction under which the resolver produces a fully
resolved StyleSheet). -/
def nestedGroupsComplete (o : StyleConfigOverrides) : Bool :=
  (match o.page with
   | none => true
   | some p =>
     (match p.size with
      | none => true
      | some s => s.width.isSome && s.height.isSome) &&
     (match p.margins with
      | none => true
      | some m => m.top.isSome && m.right.isSome && m.bottom.isSome && m.left.isSome)) &&
  (match o.font with
   | none => true
   | some f =>
     match f.size with
     | none => true
     | some s => s.heading.isSome && s.body.isSome && s.caption.isSome) &&
  (match o.paragraph with
   | none => true
   | some p =>
     (match p.spacing with
      | none => true
      | some s => s.line.isSome && s.before.isSome && s.after.isSome) &&
     (match p.indent with
      | none => true
      | some i => i.firstLine.isSome))

/-- One entry of the `paragraphStyles` array built by
`DocxGenerator.createStyles`; fields absent from a given style stay at
their defaults. -/
structure StyleDef where
  id : String
  name : String
  basedOn : Option String := none
  next : Option String := none
  quickFormat : Bool := false
  fontEastAsia : Option String := none
  fontAscii : Option String := none
  fontSize : Option ℤ := none
  bold : Bool := false
  spacingLine : Option ℚ := none
  spacingBefore : Option ℤ := none
  spacingAfter : Option ℤ := none
  indentFirstLine : Option ℤ := none
  alignCenter : Bool := false
  outlineLevel : Option ℕ := none
  shadingFill : Option String := none
deriving DecidableEq, Repr

/-- One output `Paragraph` of the assembler: either a plain-text
paragraph (`text` set) or a run-bearing one (`children` set), plus the
explicit style id, spacing and indent values passed at the call site. -/
structure RenderUnit where
  text : Option (List Char) := none
  children : List Run := []
  style : String
  alignCenter : Bool := false
  spacingBefore : Option ℤ := none
  spacingAfter : Option ℤ := none
  spacingLine : Option ℚ := none
  indentFirstLine : Option ℤ := none
  indentLeft : Option ℤ := none
  indentHanging : Option ℤ := none
deriving DecidableEq, Repr

/-- The `DocumentOptions` argument. -/
structure DocumentOptionsM where
  title : Option String := none
  description : Option String := none
  author : Option String := none
deriving DecidableEq, Repr

/-- The assembled document handed to the serialization backend: metadata,
the generated style definitions, the section page setup in native units,
and the paragraph children. A `none` measurement records a JS
`NaN`/`undefined` value. -/
structure Doc where
  creator : String
  title : Option String
  description : Option String
  styleDefs : List StyleDef
  pageWidth : Option ℤ
  pageHeight : Option ℤ
  orientation : Orientation
  marginTop : Option ℤ
  marginRight : Option ℤ
  marginBottom : Option ℤ
  marginLeft : Option ℤ
  children : List RenderUnit
deriving DecidableEq, Repr

/-- `DocxGenerator.getHeadingFontSize`: fixed sizes for levels 1..6, the
configured heading size otherwise (`fontSizes[level] || ...`). -/
def getHeadingFontSize (cfg : StyleConfig) (level : ℕ) : Option ℚ :=
  if level = 1 then some 26
  else if level = 2 then some 22
  else if level = 3 then some 18
  else if level = 4 then some 16
  else if level = 5 then some 14
  else if level = 6 then some 12
  else cfg.font.size.heading

/-- `DocxGenerator.createStyles`: Normal, Title, the configured heading
styles, ListParagraph and CodeBlock. -/
def createStyles (cfg : StyleConfig) : List StyleDef :=
  [ { id := "Normal", name := "Normal"
      fontEastAsia := some cfg.font.eastAsia, fontAscii := some cfg.font.ascii
      fontSize := ptToHalfPointsO cfg.font.size.body
      spacingLine := cfg.paragraph.spacing.line
      spacingBefore := some (mmToTwip 0), spacingAfter := some (mmToTwip 6)
      indentFirstLine := mmToTwipO cfg.paragraph.indent.firstLine },
    { id := "Title", name := "Title"
      fontEastAsia := some cfg.font.eastAsia, fontAscii := some cfg.font.ascii
      fontSize := some (ptToHalfPoints 26), bold := true
      spacingBefore := some (mmToTwip 20), spacingAfter := some (mmToTwip 20)
      alignCenter := true } ]
  ++ cfg.headingStyles.map (fun h =>
      { id := h.styleId, name := h.name
        basedOn := some h.basedOn, next := some h.next, quickFormat := h.quickFormat
        fontEastAsia := some cfg.font.eastAsia, fontAscii := some cfg.font.ascii
        fontSize := ptToHalfPointsO (getHeadingFontSize cfg h.level)
        bold := decide (h.level ≤ 2)
        spacingBefore := some (mmToTwip 12), spacingAfter := some (mmToTwip 6)
        outlineLevel := some h.level })
  ++ [ { id := "ListParagraph", name := "List Paragraph", basedOn := some "Normal"
         fontEastAsia := some cfg.font.eastAsia, fontAscii := some cfg.font.ascii
         fontSize := ptToHalfPointsO cfg.font.size.body
         spacingLine := cfg.paragraph.spacing.line
         spacingBefore := some (mmToTwip 0), spacingAfter := some (mmToTwip 0) },
       { id := "CodeBlock", name := "Code Block", basedOn := some "Normal"
         fontEastAsia := some "Consolas", fontAscii := some "Consolas"
         fontSize := some (ptToHalfPoints 9)
         spacingBefore := some (mmToTwip 6), spacingAfter := some (mmToTwip 6)
         indentFirstLine := some (mmToTwip 4)
         shadingFill := some "#f5f5f5" } ]

/-- `DocxGenerator.createHeading`: clip the level from above with
`Math.min(level, 6)`, select `Heading<n>` and use the fixed 12mm/6mm
before/after spacing. The style sheet (`this.styleConfig`) is not read. -/
def createHeading (_cfg : StyleConfig) (level : ℕ) (text : List Char) : List RenderUnit :=
  [ { text := some text
      style := "Heading" ++ toString (min level 6)
      spacingBefore := some (mmToTwip 12), spacingAfter := some (mmToTwip 6) } ]

/-- `DocxGenerator.createParagraph`: tokenize, then emit one Normal-style
unit with the configured first-line indent and line spacing. -/
def createParagraph (cfg : StyleConfig) (text : List Char) : List RenderUnit :=
  [ { children := parseInlineFormatting text
      style := "Normal"
      indentFirstLine := mmToTwipO cfg.paragraph.indent.firstLine
      spacingLine := cfg.paragraph.spacing.line
      spacingAfter := some (mmToTwip 6) } ]

/-- The literal marker run prepended to a list item: a bullet glyph, or
the 1-based ordinal `"<n>. "` for numbered lists. -/
def listItemMark (kind : LKind) (i : ℕ) : Run :=
  match kind with
  | LKind.bullet => ⟨"· ".toList, false, false, false⟩
  | LKind.number => ⟨(toString (i + 1) ++ ". ").toList, false, false, false⟩

/-- `DocxGenerator.createList`: one unit per item, marker run first. -/
def createList (_cfg : StyleConfig) (kind : LKind) (items : List (List Char)) :
    List RenderUnit :=
  items.mapIdx (fun i item =>
    { children := listItemMark kind i :: parseInlineFormatting item
      style := "ListParagraph"
      indentLeft := some (mmToTwip 4), indentHanging := some (mmToTwip 2)
      spacingAfter := some (mmToTwip 3) })

/-- `DocxGenerator.createCodeBlock`: the raw text (split and rejoined on
newlines, an identity) as a single monospace run, no inline tokenization. -/
def createCodeBlock (_cfg : StyleConfig) (code : List Char) : List RenderUnit :=
  let codeText := List.intercalate ['\n'] (splitLines code)
  [ { children := [⟨codeText, false, false, true⟩]
      style := "CodeBlock"
      indentLeft := some (mmToTwip 8), indentFirstLine := some (mmToTwip 4)
      spacingBefore := some (mmToTwip 6), spacingAfter := some (mmToTwip 6) } ]

/-- Dispatch of the assembler's per-element switch. -/
def elementUnits (cfg : StyleConfig) : Element → List RenderUnit
  | Element.heading level text => createHeading cfg level text
  | Element.paragraph text => createParagraph cfg text
  | Element.list kind items => createList cfg kind items
  | Element.code text => createCodeBlock cfg text

/-- `DocxGenerator.createDocumentFromParsed`: prepend a title unit when
`options.title` is present, walk the parsed elements, and build the
document with the page setup converted to native units. No validation of
the style sheet occurs anywhere on this path: an undefined leaf value
flows through the unit conversion as `NaN` (`none`) and the document is
still produced. -/
def createDocumentFromParsed (cfg : StyleConfig) (parsed : List Element)
    (options : DocumentOptionsM) : Doc :=
  let titleUnits : List RenderUnit :=
    match options.title with
    | none => []
    | some t =>
      [ { text := some t.toList, style := "Title", alignCenter := true
          spacingBefore := some (mmToTwip 20), spacingAfter := some (mmToTwip 20) } ]
  { creator := options.author.getD "DocForge"
    title := options.title
    description := options.description
    styleDefs := createStyles cfg
    pageWidth := mmToTwipO cfg.page.size.width
    pageHeight := mmToTwipO cfg.page.size.height
    orientation := cfg.page.orientation
    marginTop := mmToTwipO cfg.page.margins.top
    marginRight := mmToTwipO cfg.page.margins.right
    marginBottom := mmToTwipO cfg.page.margins.bottom
    marginLeft := mmToTwipO cfg.page.margins.left
    children := titleUnits ++ (parsed.map (elementUnits cfg)).flatten }

/-! ### Helper lemmas -/

theorem runsText_append (a b : List Run) : runsText (a ++ b) = runsText a ++ runsText b := by
  simp [runsText]

theorem runsText_flushRun (p : List Char) (b i : Bool) : runsText (flushRun p b i) = p := by
  unfold flushRun
  split
  · simp_all [runsText, List.isEmpty_iff]
  · simp [runsText]

theorem scanRunsF_nil (n : ℕ) (b i : Bool) : scanRunsF n [] [] b i = [] := by
  cases n <;> simp [scanRunsF, flushRun]

theorem scanRunsF_join (fuel : ℕ) :
    ∀ (l pending : List Char) (b i : Bool), l.length < fuel → btk ∉ l →
      runsText (scanRunsF fuel l pending b i) = pending ++ l.filter (· != '*') := by
  induction fuel with
  | zero => intro l pending b i h _; omega
  | succ n ih =>
    intro l pending b i hlen hbtk
    match l with
    | [] => simp [scanRunsF, runsText_flushRun]
    | c :: rest =>
      have hbc : c ≠ btk := fun hc => hbtk (hc ▸ List.mem_cons_self c rest)
      have hbrest : btk ∉ rest := fun hm => hbtk (List.mem_cons_of_mem c hm)
      have hlr : rest.length < n := by simp at hlen; omega
      by_cases hc : c = '*'
      · subst hc
        match rest with
        | [] =>
          simp [scanRunsF, runsText_append, runsText_flushRun, scanRunsF_nil]
        | c2 :: rest2 =>
          by_cases hc2 : c2 = '*'
          · subst hc2
            have h2 : rest2.length < n := by simp at hlen; omega
            simp [scanRunsF, runsText_append, runsText_flushRun,
              ih rest2 [] (!b) i h2 (fun hm => hbrest (List.mem_cons_of_mem _ hm))]
          · simp [scanRunsF, hc2, runsText_append, runsText_flushRun,
              ih (c2 :: rest2) [] b (!i) hlr hbrest]
      · simp [scanRunsF, hc, hbc, runsText_append,
          ih rest (pending ++ [c]) b i hlr hbrest, List.filter_cons]

/-! ### C2: run-concatenation invariant of the inline tokenizer -/

/-- C2, counterexample: the claim fails as stated. On input `a`b``, the
code-span branch pushes its run without flushing the pending buffer, so
the runs concatenate to `ba`, not to the input with the delimiter
characters (here the backticks) removed, which would be `ab`. -/
theorem c2_concat_counterexample :
    runsText (parseInlineFormatting ("a`b`".toList)) = "ba".toList ∧
    ("a`b`".toList).filter (fun c => !(c == '*' || c == btk)) = "ab".toList ∧
    "ba".toList ≠ "ab".toList := by
  refine ⟨by decide, by decide, by decide⟩

/-- C2 (amended): for inputs containing no backtick and at least one
non-asterisk character (or the empty input), concatenating the run texts
in order reproduces the input with the `*`/`**` delimiter characters
removed. (Backtick spans are emitted before the pending plain text and
reorder the output; an all-asterisk input hits the fallback run carrying
the whole original text, see C5.) -/
theorem c2_concat_no_backtick (l : List Char) (hb : btk ∉ l)
    (hne : l = [] ∨ ∃ c ∈ l, c ≠ '*') :
    runsText (parseInlineFormatting l) = l.filter (· != '*') := by
  rcases hne with rfl | ⟨c, hcl, hcs⟩
  · decide
  · have hj := scanRunsF_join (l.length + 1) l [] false false (by omega) hb
    by_cases hrs : (scanRunsF (l.length + 1) l [] false false).isEmpty = true
    · exfalso
      rw [List.isEmpty_iff] at hrs
      rw [hrs] at hj
      simp only [runsText, List.map_nil, List.flatten_nil, List.nil_append] at hj
      have hmem : c ∈ l.filter (· != '*') := List.mem_filter.2 ⟨hcl, by simp [hcs]⟩
      rw [← hj] at hmem
      exact List.not_mem_nil c hmem
    · simp only [parseInlineFormatting]
      rw [if_neg hrs]
      simpa using hj

/-- C2, witness for the amended theorem at a concrete input. -/
theorem c2_concat_no_backtick_witness :
    runsText (parseInlineFormatting ("ab**c".toList)) = "abc".toList := by
  have h := c2_concat_no_backtick ("ab**c".toList) (by decide)
    (Or.inr ⟨'a', by decide, by decide⟩)
  simpa using h

/-! ### C5: the zero-runs fallback of the tokenizer -/

/-- C5, counterexample: the claim fails as stated. The input `*` makes
the scan produce zero runs (the lone `*` only toggles the italic state),
but the fallback run `new TextRun({ text })` carries the whole original
text `*`, not the empty text the claim requires. -/
theorem c5_fallback_counterexample :
    scanRunsF (("*".toList).length + 1) ("*".toList) [] false false = [] ∧
    parseInlineFormatting ("*".toList) ≠ [⟨[], false, false, false⟩] ∧
    parseInlineFormatting ("*".toList) = [⟨"*".toList, false, false, false⟩] := by
  refine ⟨by decide, by decide, by decide⟩

/-- C5 (amended): whenever the scan produces zero runs, `tokenize`
returns exactly one run with default attributes whose text is the whole
original input — which is empty exactly for the empty input. -/
theorem c5_fallback_original_text (l : List Char)
    (h : scanRunsF (l.length + 1) l [] false false = []) :
    parseInlineFormatting l = [⟨l, false, false, false⟩] := by
  unfold parseInlineFormatting
  simp [h]

/-- C5, witness: the empty input hits the fallback and returns a single
empty default-attribute run. -/
theorem c5_fallback_original_text_witness :
    parseInlineFormatting [] = [⟨[], false, false, false⟩] :=
  c5_fallback_original_text [] (by decide)

/-! ### C8: the millimeter conversion -/

/-- C8: `mmToNative` is the pure total function rounding `mm * 56.7` to
the nearest integer (halves toward positive infinity, as JS
`Math.round`); zero and negative inputs go through the same formula, and
`mmToNative 210 = 11907`. -/
theorem c8_mmToNative_round :
    (∀ m : ℚ, mmToTwip m = round (m * 56.7)) ∧
    mmToTwip 210 = 11907 ∧ mmToTwip 0 = 0 ∧ mmToTwip (-1) = -57 ∧
    mmToTwip 25.4 = 1440 := by
  refine ⟨fun m => rfl, ?_, ?_, ?_, ?_⟩ <;> norm_num [mmToTwip, round_eq]

/-! ### C3: the resolver and deeply nested partial overrides -/

/-- A deep-partial override: `font` carries a `size` object supplying
only `heading`. -/
def cexFontOverride : StyleConfigOverrides :=
  { font := some { size := some { heading := some 20 } } }

/-- C3, counterexample: the claim fails as stated. The spread
`{...defaultConfig.font, ...overrides.font}` is one level deep, so a
supplied partial `font.size` object replaces the default wholesale:
resolving `{font: {size: {heading: 20}}}` leaves `font.size.body`
and `font.size.caption` undefined. -/
theorem c3_resolver_counterexample :
    fullyResolved (mergeStyles cexFontOverride) = false ∧
    (mergeStyles cexFontOverride).font.size.body = none ∧
    (mergeStyles cexFontOverride).font.size.caption = none := by
  refine ⟨by decide, by decide, by decide⟩

theorem mergePage_resolved (o : Option OPage)
    (h : (match o with
          | none => true
          | some p =>
            (match p.size with
             | none => true
             | some s => s.width.isSome && s.height.isSome) &&
            (match p.margins with
             | none => true
             | some m => m.top.isSome && m.right.isSome && m.bottom.isSome && m.left.isSome)) = true) :
    ((mergePage defaultConfig.page o).size.width.isSome &&
     (mergePage defaultConfig.page o).size.height.isSome &&
     (mergePage defaultConfig.page o).margins.top.isSome &&
     (mergePage defaultConfig.page o).margins.right.isSome &&
     (mergePage defaultConfig.page o).margins.bottom.isSome &&
     (mergePage defaultConfig.page o).margins.left.isSome) = true := by
  rcases o with _ | ⟨psz, pm, por⟩
  · decide
  · rcases psz with _ | s <;> rcases pm with _ | m <;>
      simp_all [mergePage, defaultConfig, Option.getD]

theorem mergeFont_resolved (o : Option OFont)
    (h : (match o with
          | none => true
          | some f =>
            match f.size with
            | none => true
            | some s => s.heading.isSome && s.body.isSome && s.caption.isSome) = true) :
    ((mergeFont defaultConfig.font o).size.heading.isSome &&
     (mergeFont defaultConfig.font o).size.body.isSome &&
     (mergeFont defaultConfig.font o).size.caption.isSome) = true := by
  rcases o with _ | ⟨fe, fa, fsz⟩
  · decide
  · rcases fsz with _ | s <;> simp_all [mergeFont, defaultConfig, Option.getD]

theorem mergeParagraph_resolved (o : Option OParagraph)
    (h : (match o with
          | none => true
          | some p =>
            (match p.spacing with
             | none => true
             | some s => s.line.isSome && s.before.isSome && s.after.isSome) &&
            (match p.indent with
             | none => true
             | some i => i.firstLine.isSome)) = true) :
    ((mergeParagraph defaultConfig.paragraph o).spacing.line.isSome &&
     (mergeParagraph defaultConfig.paragraph o).spacing.before.isSome &&
     (mergeParagraph defaultConfig.paragraph o).spacing.after.isSome &&
     (mergeParagraph defaultConfig.paragraph o).indent.firstLine.isSome) = true := by
  rcases o with _ | ⟨ps, pi⟩
  · decide
  · rcases ps with _ | s <;> rcases pi with _ | i <;>
      simp_all [mergeParagraph, defaultConfig, Option.getD]

/-- C3 (amended): the resolver is total (it never throws), and for every
override whose supplied nested sub-objects (`page.size`, `page.margins`,
`font.size`, `paragraph.spacing`, `paragraph.indent`) are themselves
fully specified, the result has no undefined reachable field. A
partially-specified nested sub-object is copied wholesale, leaving its
unsupplied leaves undefined (see the counterexample). -/
theorem c3_resolver_complete (o : StyleConfigOverrides)
    (h : nestedGroupsComplete o = true) :
    fullyResolved (mergeStyles o) = true := by
  unfold nestedGroupsComplete at h
  rw [Bool.and_eq_true, Bool.and_eq_true] at h
  obtain ⟨⟨hp, hf⟩, hpr⟩ := h
  have h1 := mergePage_resolved o.page hp
  have h2 := mergeFont_resolved o.font hf
  have h3 := mergeParagraph_resolved o.paragraph hpr
  unfold fullyResolved mergeStyles
  simp only [Bool.and_eq_true] at h1 h2 h3 ⊢
  exact ⟨⟨⟨⟨⟨⟨⟨⟨⟨⟨⟨⟨h1.1.1.1.1.1, h1.1.1.1.1.2⟩, h1.1.1.1.2⟩, h1.1.1.2⟩,
    h1.1.2⟩, h1.2⟩, h2.1.1⟩, h2.1.2⟩, h2.2⟩, h3.1.1.1⟩, h3.1.1.2⟩, h3.1.2⟩, h3.2⟩

/-- C3, witness: a one-leaf `font` override (no nested sub-object) is
complete and resolves fully. -/
theorem c3_resolver_complete_witness :
    fullyResolved (mergeStyles { font := some { ascii := some "Arial" } }) = true :=
  c3_resolver_complete _ (by decide)

/-! ### C4: frame property of the resolver -/

/-- The empty override. -/
def emptyOverride : StyleConfigOverrides := {}

/-- The override of end-to-end scenario E. -/
def kaitiOverride : StyleConfigOverrides := { font := some { eastAsia := some "楷体" } }

/-- C4: unsupplied field groups keep their defaults. Resolving the empty
override returns exactly the default StyleSheet; for every override, each
top-level group that is absent comes out equal to the default group; and
scenario E: `resolve({font:{eastAsia:"楷体"}})` changes only
`font.eastAsia`, leaving `font.ascii`, `font.size` and all other groups
at the defaults. -/
theorem c4_resolver_frame :
    mergeStyles emptyOverride = defaultConfig ∧
    (∀ o : StyleConfigOverrides,
      (o.page = none → (mergeStyles o).page = defaultConfig.page) ∧
      (o.font = none → (mergeStyles o).font = defaultConfig.font) ∧
      (o.paragraph = none → (mergeStyles o).paragraph = defaultConfig.paragraph) ∧
      (o.headingStyles = none → (mergeStyles o).headingStyles = defaultConfig.headingStyles) ∧
      (o.listStyles = none → (mergeStyles o).listStyles = defaultConfig.listStyles) ∧
      (o.styles = none → (mergeStyles o).styles = defaultConfig.styles) ∧
      (o.version = none → (mergeStyles o).version = defaultConfig.version)) ∧
    mergeStyles kaitiOverride =
      { defaultConfig with font := { defaultConfig.font with eastAsia := "楷体" } } := by
  refine ⟨rfl, fun o => ⟨?_, ?_, ?_, ?_, ?_, ?_, ?_⟩, rfl⟩ <;>
    intro h <;> simp [mergeStyles, mergePage, mergeFont, mergeParagraph, h]

/-- C4, witness: the frame part applied to scenario E's override, whose
`page` group is absent and stays at the default. -/
theorem c4_resolver_frame_witness :
    (mergeStyles kaitiOverride).page = defaultConfig.page :=
  (c4_resolver_frame.2.1 kaitiOverride).1 rfl

/-! ### C1: the assembler has no error path -/

/-- A deep-partial override producing a style sheet with an undefined
`page.size.height`. -/
def cexPageOverride : StyleConfigOverrides :=
  { page := some { size := some { width := some 100 } } }

/-- C1, counterexample: the claim fails as stated. The style sheet
resolved from `{page: {size: {width: 100}}}` is not fully resolved
(`page.size.height` is undefined), yet `createDocumentFromParsed`
performs no completeness check and raises no configuration error: it
produces a document whose page height is the silently-propagated
undefined value (`Math.round(undefined * 56.7)` is `NaN`) while the rest
of the document is assembled normally. -/
theorem c1_assembler_counterexample :
    fullyResolved (mergeStyles cexPageOverride) = false ∧
    (createDocumentFromParsed (mergeStyles cexPageOverride) [] {}).pageHeight = none ∧
    (createDocumentFromParsed (mergeStyles cexPageOverride) [] {}).pageWidth =
      some (mmToTwip 100) ∧
    (createDocumentFromParsed (mergeStyles cexPageOverride)
      [Element.paragraph ("x".toList)] {}).children ≠ [] := by
  refine ⟨by decide, rfl, rfl, by decide⟩

/-- C1 (amended): the assembler is total and validates nothing: for every
style sheet — resolved or not — it produces a document whose page
dimensions are the converted style-sheet values, so an undefined field
yields an undefined native-unit value in the produced document instead of
a configuration error; the core has no error path at all. -/
theorem c1_assembler_silent (cfg : StyleConfig) (parsed : List Element)
    (opts : DocumentOptionsM) :
    (createDocumentFromParsed cfg parsed opts).pageWidth = mmToTwipO cfg.page.size.width ∧
    (createDocumentFromParsed cfg parsed opts).pageHeight = mmToTwipO cfg.page.size.height ∧
    (cfg.page.size.height = none →
      (createDocumentFromParsed cfg parsed opts).pageHeight = none) := by
  refine ⟨rfl, rfl, fun h => ?_⟩
  simp [createDocumentFromParsed, mmToTwipO, h]

/-- C1, witness for the amended theorem at the unresolved style sheet of
the counterexample. -/
theorem c1_assembler_silent_witness :
    (createDocumentFromParsed (mergeStyles cexPageOverride)
      [Element.paragraph ("x".toList)] {}).pageHeight = none :=
  (c1_assembler_silent (mergeStyles cexPageOverride)
    [Element.paragraph ("x".toList)] {}).2.2 (by decide)

/-! ### Structural invariants of the parser output -/

theorem mem_dropWhile_of_neg {c : Char} {p : Char → Bool} {l : List Char}
    (hc : c ∈ l) (hp : p c = false) : c ∈ l.dropWhile p := by
  have hsplit := List.takeWhile_append_dropWhile (p := p) (l := l)
  rw [← hsplit] at hc
  rcases List.mem_append.1 hc with h | h
  · have := List.mem_takeWhile_imp h
    rw [hp] at this
    exact absurd this (by simp)
  · exact h

theorem mem_trimChars {c : Char} {l : List Char} (hc : c ∈ l) (hw : isWs c = false) :
    c ∈ trimChars l := by
  unfold trimChars
  have h1 : c ∈ l.dropWhile isWs := mem_dropWhile_of_neg hc hw
  have h2 : c ∈ (l.dropWhile isWs).reverse := List.mem_reverse.2 h1
  exact List.mem_reverse.2 (mem_dropWhile_of_neg h2 hw)

/-- The per-element output invariant: headings carry a level in `[1,6]`,
paragraphs carry non-empty trimmed text, lists carry at least one item. -/
def GoodElem (e : Element) : Prop :=
  (∀ k t, e = Element.heading k t → 1 ≤ k ∧ k ≤ 6) ∧
  (∀ t, e = Element.paragraph t → trimChars t ≠ []) ∧
  (∀ k its, e = Element.list k its → its ≠ [])

theorem flushPara_good {para : List Char}
    (hpara : para = [] ∨ ∃ c ∈ para, isWs c = false) :
    ∀ e ∈ flushPara para, GoodElem e := by
  intro e he
  unfold flushPara at he
  split at he
  · simp at he
  · rename_i hne
    rw [List.mem_singleton] at he
    subst he
    refine ⟨by simp, ?_, by simp⟩
    intro t ht
    injection ht with ht'
    subst ht'
    rcases hpara with rfl | ⟨c, hcm, hcw⟩
    · simp at hne
    · exact List.ne_nil_of_mem (mem_trimChars (mem_trimChars hcm hcw) hcw)

theorem flushList_good {lst : Option ListAcc}
    (hlst : ∀ acc, lst = some acc → acc.items ≠ []) :
    ∀ e ∈ flushList lst, GoodElem e := by
  intro e he
  rcases lst with _ | acc
  · simp [flushList] at he
  · rw [flushList, List.mem_singleton] at he
    subst he
    refine ⟨by simp, by simp, ?_⟩
    intro k its h
    injection h with h1 h2
    subst h2
    exact hlst acc rfl

theorem headingMatch_bound {l : List Char} {k : ℕ} {t : List Char}
    (h : headingMatch l = some (k, t)) : 1 ≤ k ∧ k ≤ 6 := by
  simp only [headingMatch] at h
  split at h
  · rename_i hcond
    rcases hm : matchTailCapture (l.drop (l.takeWhile (· == '#')).length) with _ | cap <;>
      rw [hm] at h <;> simp at h
    omega
  · exact absurd h (by simp)

theorem parseLinesF_good (fuel : ℕ) :
    ∀ (lines : List (List Char)) (para : List Char) (lst : Option ListAcc),
      (para = [] ∨ ∃ c ∈ para, isWs c = false) →
      (∀ acc, lst = some acc → acc.items ≠ []) →
      ∀ e ∈ parseLinesF fuel lines para lst, GoodElem e := by
  induction fuel with
  | zero => intro lines para lst _ _ e he; simp [parseLinesF] at he
  | succ n ih =>
    intro lines para lst hpara hlst e he
    rcases lines with _ | ⟨l, ls⟩
    · simp only [parseLinesF] at he
      rcases List.mem_append.1 he with h | h
      · exact flushPara_good hpara e h
      · exact flushList_good hlst e h
    · simp only [parseLinesF] at he
      by_cases hws : l.all isWs = true
      · rw [if_pos hws] at he
        rcases List.mem_append.1 he with h | h
        · rcases List.mem_append.1 h with h' | h'
          · exact flushPara_good hpara e h'
          · exact flushList_good hlst e h'
        · exact ih ls [] none (Or.inl rfl) (by simp) e h
      · rw [if_neg hws] at he
        have hnb : ∃ c ∈ l, isWs c = false := by simpa using hws
        cases hh : headingMatch l with
        | some kt =>
          simp only [hh] at he
          rcases List.mem_append.1 he with h | h
          · rcases List.mem_append.1 h with h' | h'
            · exact flushPara_good hpara e h'
            · exact flushList_good hlst e h'
          · rcases List.mem_cons.1 h with rfl | h'
            · refine ⟨?_, by simp, by simp⟩
              intro k t hkt
              injection hkt with h1 h2
              subst h1
              exact headingMatch_bound hh
            · exact ih ls [] none (Or.inl rfl) (by simp) e h'
        | none =>
          simp only [hh] at he
          cases hi : itemMatch l with
          | some kt =>
            simp only [hi] at he
            rcases lst with _ | acc
            · rcases List.mem_append.1 he with h | h
              · exact flushPara_good hpara e h
              · exact ih ls [] (some ⟨kt.1, [kt.2]⟩) (Or.inl rfl)
                  (fun acc hacc => by injection hacc with h'; subst h'; simp) e h
            · simp only at he
              by_cases hk : acc.kind = kt.1
              · rw [if_pos hk] at he
                rcases List.mem_append.1 he with h | h
                · exact flushPara_good hpara e h
                · exact ih ls [] (some ⟨acc.kind, acc.items ++ [kt.2]⟩) (Or.inl rfl)
                    (fun acc' hacc => by injection hacc with h'; subst h'; simp) e h
              · rw [if_neg hk] at he
                rcases List.mem_append.1 he with h | h
                · exact flushPara_good hpara e h
                · rcases List.mem_cons.1 h with rfl | h'
                  · refine ⟨by simp, by simp, ?_⟩
                    intro k its hl
                    injection hl with h1 h2
                    subst h2
                    exact hlst acc rfl
                  · exact ih ls [] (some ⟨kt.1, [kt.2]⟩) (Or.inl rfl)
                      (fun acc' hacc => by injection hacc with h'; subst h'; simp) e h'
          | none =>
            simp only [hi] at he
            by_cases hf : startsFence l = true
            · rw [if_pos hf] at he
              rcases List.mem_append.1 he with h | h
              · rcases List.mem_append.1 h with h' | h'
                · exact flushPara_good hpara e h'
                · exact flushList_good hlst e h'
              · rcases List.mem_cons.1 h with rfl | h'
                · exact ⟨by simp, by simp, by simp⟩
                · exact ih (takeToFence ls).2 [] none (Or.inl rfl) (by simp) e h'
            · rw [if_neg hf] at he
              refine ih ls (para ++ l ++ ['\n']) lst ?_ hlst e he
              obtain ⟨c, hcm, hcw⟩ := hnb
              exact Or.inr ⟨c, List.mem_append.2 (Or.inl (List.mem_append.2 (Or.inr hcm))), hcw⟩

/-! ### C10: no degenerate paragraph or list blocks -/

/-- C10: for every input string, every `Paragraph` block the parser emits
has non-empty trimmed text, and every `List` block has at least one item. -/
theorem c10_no_degenerate_blocks (s : String) (e : Element)
    (he : e ∈ parseMarkdownContent s) :
    (∀ t, e = Element.paragraph t → trimChars t ≠ []) ∧
    (∀ k its, e = Element.list k its → its ≠ []) :=
  have g := parseLinesF_good _ _ [] none (Or.inl rfl) (by simp) e he
  ⟨g.2.1, g.2.2⟩

/-- C10, witness at a concrete input. -/
theorem c10_no_degenerate_blocks_witness : trimChars ("hi".toList) ≠ [] :=
  (c10_no_degenerate_blocks "hi" (Element.paragraph ("hi".toList)) (by decide)).1
    ("hi".toList) rfl

/-! ### C9: heading assembly -/

/-- C9: every `Heading` block the parser emits has level in `[1,6]`; for
such levels the assembler's clip `min level 6` stays in `[1,6]`, the unit
is emitted with style id `Heading<n>` and with the fixed 12mm-before /
6mm-after spacing converted to native units (680 and 340 twips); the
result does not depend on the style sheet at all, in particular not on
its generic paragraph spacing. -/
theorem c9_heading_units :
    (∀ (s : String) (k : ℕ) (t : List Char),
      Element.heading k t ∈ parseMarkdownContent s → 1 ≤ k ∧ k ≤ 6) ∧
    (∀ (cfg : StyleConfig) (level : ℕ) (tx : List Char), 1 ≤ level →
      createHeading cfg level tx =
        [{ text := some tx
           style := "Heading" ++ toString (min level 6)
           spacingBefore := some (mmToTwip 12)
           spacingAfter := some (mmToTwip 6) }] ∧
      1 ≤ min level 6 ∧ min level 6 ≤ 6) ∧
    mmToTwip 12 = 680 ∧ mmToTwip 6 = 340 ∧
    (∀ (cfg cfg' : StyleConfig) (level : ℕ) (tx : List Char),
      createHeading cfg level tx = createHeading cfg' level tx) := by
  refine ⟨?_, ?_, by norm_num [mmToTwip, round_eq], by norm_num [mmToTwip, round_eq],
    fun _ _ _ _ => rfl⟩
  · intro s k t hmem
    exact (parseLinesF_good _ _ [] none (Or.inl rfl) (by simp) _ hmem).1 k t rfl
  · intro cfg level tx h
    exact ⟨rfl, by omega, by omega⟩

/-- C9, witness at level 3. -/
theorem c9_heading_units_witness :
    createHeading defaultConfig 3 ("T".toList) =
      [{ text := some ("T".toList)
         style := "Heading" ++ toString (min 3 6)
         spacingBefore := some (mmToTwip 12)
         spacingAfter := some (mmToTwip 6) }] :=
  (c9_heading_units.2.1 defaultConfig 3 ("T".toList) (by omega)).1

/-! ### C6: list coalescing -/

theorem ltrim_of_trim_eq {t : List Char} (h : trimChars t = t) :
    t.dropWhile isWs = t := by
  have hs : t.dropWhile isWs <:+ t := List.dropWhile_suffix _
  have hlen1 : (t.dropWhile isWs).length ≤ t.length := hs.length_le
  have hlen2 : t.length ≤ (t.dropWhile isWs).length := by
    have hh : (trimChars t).length ≤ (t.dropWhile isWs).length := by
      unfold trimChars
      simp only [List.length_reverse]
      have := (List.dropWhile_suffix (l := (t.dropWhile isWs).reverse) isWs).length_le
      simpa using this
    simpa [h] using hh
  exact hs.eq_of_length (by omega)

theorem bulletMatch_valid {t : List Char} (hne : t ≠ []) (htr : trimChars t = t)
    (hbr : t.any isBreak = false) :
    bulletMatch ('-' :: ' ' :: t) = some t := by
  have hl : t.dropWhile isWs = t := ltrim_of_trim_eq htr
  have hw : isWs ' ' = true := by decide
  have hds : (' ' :: t).dropWhile isWs = t := by
    rw [List.dropWhile_cons_of_pos hw, hl]
  simp only [bulletMatch, matchTailCapture]
  simp [hds, hw, List.isEmpty_iff, hne, hbr, htr]

theorem bulletLine_not_blank (t : List Char) : (('-' :: ' ' :: t)).all isWs = false := by
  simp [List.all_cons, isWs]

theorem bulletLine_not_heading (t : List Char) :
    headingMatch ('-' :: ' ' :: t) = none := by
  simp [headingMatch]

theorem bulletLine_item {t : List Char} (hne : t ≠ []) (htr : trimChars t = t)
    (hbr : t.any isBreak = false) :
    itemMatch ('-' :: ' ' :: t) = some (LKind.bullet, t) := by
  simp [itemMatch, bulletMatch_valid hne htr hbr]

theorem parseLinesF_bullets (fuel : ℕ) :
    ∀ (ts acc : List (List Char)), ts.length < fuel →
      (∀ t ∈ ts, t ≠ [] ∧ trimChars t = t ∧ t.any isBreak = false) →
      parseLinesF fuel (ts.map (fun t => '-' :: ' ' :: t)) []
          (some ⟨LKind.bullet, acc⟩) =
        [Element.list LKind.bullet (acc ++ ts)] := by
  induction fuel with
  | zero => intro ts acc h _; omega
  | succ n ih =>
    intro ts acc hlen hval
    rcases ts with _ | ⟨t, rest⟩
    · simp [parseLinesF, flushPara, flushList]
    · obtain ⟨hne, htr, hbr⟩ := hval t (List.mem_cons_self t rest)
      have hlen' : rest.length < n := by simp at hlen; omega
      simp only [List.map_cons, parseLinesF, bulletLine_not_blank t, Bool.false_eq_true,
        if_false, bulletLine_not_heading t, bulletLine_item hne htr hbr]
      rw [ih rest (acc ++ [t]) hlen' (fun x hx => hval x (List.mem_cons_of_mem t hx))]
      simp [flushPara]

/-- C6, counterexample: the claim fails as stated. A plain paragraph line
between two bullet items does not terminate the open list: only blank
lines, headings, code fences, kind changes and end of input flush
`currentList`. Parsing `"- a\nx\n- b"` coalesces `a` and `b` into one
`List` block (emitted after the intervening `Paragraph`), not the
`[List[a], Paragraph, List[b]]` the claim predicts. -/
theorem c6_list_termination_counterexample :
    parseMarkdownContent "- a\nx\n- b" =
      [Element.paragraph ("x".toList),
       Element.list LKind.bullet ["a".toList, "b".toList]] ∧
    parseMarkdownContent "- a\nx\n- b" ≠
      [Element.list LKind.bullet ["a".toList], Element.paragraph ("x".toList),
       Element.list LKind.bullet ["b".toList]] := by
  refine ⟨by decide, by decide⟩

/-- C6 (amended): the parser coalesces consecutive same-kind list-item
lines into a single `List` block (stated for an arbitrary non-empty run
of bullet-item lines), and a change of list kind, a blank line, a heading
or a code fence terminates the current list — but an intervening plain
paragraph line does not: the list stays open, later same-kind items keep
coalescing into it, and the paragraph block is emitted before the list
block. Scenario B, a direct bullet-to-number kind change, a heading
terminating a list, and the paragraph non-termination all evaluate as
specified. -/
theorem c6_list_coalescing :
    (∀ ts : List (List Char), ts ≠ [] →
      (∀ t ∈ ts, t ≠ [] ∧ trimChars t = t ∧ t.any isBreak = false) →
      parseMarkdownLines (ts.map (fun t => '-' :: ' ' :: t)) =
        [Element.list LKind.bullet ts]) ∧
    parseMarkdownContent "- item1\n- item2\n\n1. first\n" =
      [Element.list LKind.bullet ["item1".toList, "item2".toList],
       Element.list LKind.number ["first".toList]] ∧
    parseMarkdownContent "- a\n1. b" =
      [Element.list LKind.bullet ["a".toList],
       Element.list LKind.number ["b".toList]] ∧
    parseMarkdownContent "- a\n# H" =
      [Element.list LKind.bullet ["a".toList], Element.heading 1 ("H".toList)] ∧
    parseMarkdownContent "- a\nx\n- b\n\n- c" =
      [Element.paragraph ("x".toList),
       Element.list LKind.bullet ["a".toList, "b".toList],
       Element.list LKind.bullet ["c".toList]] := by
  refine ⟨?_, by decide, by decide, by decide, by decide⟩
  intro ts hne hval
  rcases ts with _ | ⟨t, rest⟩
  · exact absurd rfl hne
  · obtain ⟨hn, htr, hbr⟩ := hval t (List.mem_cons_self t rest)
    unfold parseMarkdownLines
    simp only [List.map_cons, List.length_cons, parseLinesF, bulletLine_not_blank t,
      Bool.false_eq_true, if_false, bulletLine_not_heading t, bulletLine_item hn htr hbr]
    rw [parseLinesF_bullets _ rest [t] (by simp) (fun x hx => hval x (List.mem_cons_of_mem t hx))]
    simp [flushPara]

/-- C6, witness for the universal coalescing part. -/
theorem c6_list_coalescing_witness :
    parseMarkdownLines (["x".toList, "y".toList].map (fun t => '-' :: ' ' :: t)) =
      [Element.list LKind.bullet ["x".toList, "y".toList]] :=
  c6_list_coalescing.1 ["x".toList, "y".toList] (by decide) (by decide)

/-! ### C7: totality and the unterminated code fence -/

theorem takeToFence_all {ls : List (List Char)} (h : ∀ l ∈ ls, startsFence l = false) :
    takeToFence ls = (ls, []) := by
  induction ls with
  | nil => rfl
  | cons l ls ih =>
    simp [takeToFence, h l (List.mem_cons_self l ls),
      ih (fun x hx => h x (List.mem_cons_of_mem l hx))]

/-- C7: the parser is a total function (this embedding computes it for
every input, matching the absence of any throwing path in the source),
and an unterminated code fence consumes all remaining lines into one
`CodeBlock`, fence line excluded: opening with a fence line and following
with any lines none of which starts a fence yields exactly one code block
holding the trimmed remaining content; scenario C evaluates as specified. -/
theorem c7_unterminated_fence :
    (∀ ls : List (List Char), (∀ l ∈ ls, startsFence l = false) →
      parseMarkdownLines ("```".toList :: ls) = [Element.code (trimChars (joinNl ls))]) ∧
    parseMarkdownContent "```\ncode here\n" = [Element.code ("code here".toList)] := by
  refine ⟨?_, by decide⟩
  intro ls h
  unfold parseMarkdownLines
  have h1 : ("```".toList).all isWs = false := by decide
  have h2 : headingMatch ("```".toList) = none := by decide
  have h3 : itemMatch ("```".toList) = none := by decide
  have h4 : startsFence ("```".toList) = true := by decide
  simp only [List.length_cons, parseLinesF, h1, Bool.false_eq_true, if_false, h2, h3, h4,
    if_true]
  rw [takeToFence_all h]
  simp [parseLinesF, flushPara, flushList]

/-- C7, witness for the universal part. -/
theorem c7_unterminated_fence_witness :
    parseMarkdownLines ("```".toList :: ["x".toList]) =
      [Element.code (trimChars (joinNl ["x".toList]))] :=
  c7_unterminated_fence.1 ["x".toList] (by decide)

end DocForge
